import Mathlib

/-!
# dnsf: zone indexing and query resolution

A shallow embedding of `src/main.go` (`runE`, `dnsZoneHandler`, `globalID`).

* Resource records, questions and messages are the structured values of the
  DNS library; only their fields are modelled, not their wire format.
* A Go `map[K][]dns.RR` is an association list with distinct keys; indexing an
  absent key gives the zero value `nil` (the empty slice).
* The handler closure built by `dnsZoneHandler` is the record of the variables
  it captures together with the function `ZoneHandler.ServeDNS`.
* `globalID` is threaded explicitly: every handler call takes the counter value
  before the call and returns the value after it.
* Logging calls have no effect on the values computed and are left out, except
  the two fields logged by "Received DNS query", which are kept in the result.
-/

namespace Dnsf

/-! ## Data model -/

/-- The header of a resource record (`dns.RR_Header`). -/
structure RR_Header where
  Name : String
  Rrtype : Nat
  Class : Nat
  Ttl : Nat
  deriving DecidableEq, Repr

/-- A resource record as produced by the zone parser: its header and its
type-specific payload in presentation form. The concrete Go type of a parsed
record is the one the library associates with `Hdr.Rrtype`. -/
structure RR where
  Hdr : RR_Header
  Rdata : String
  deriving DecidableEq, Repr

/-- The value of `dns.TypeA`. -/
def TypeA : Nat := 1
/-- The value of `dns.TypeNS`. -/
def TypeNS : Nat := 2
/-- The value of `dns.TypeSOA`. -/
def TypeSOA : Nat := 6
/-- The value of `dns.TypeAAAA`. -/
def TypeAAAA : Nat := 28
/-- The value of `dns.ClassINET`. -/
def ClassINET : Nat := 1

/-- One entry of the question section (`dns.Question`). -/
structure Question where
  Name : String
  Qtype : Nat
  Qclass : Nat
  deriving DecidableEq, Repr

/-- A DNS message (`dns.Msg`): header bits and the four sections. -/
structure Msg where
  Id : Nat
  Response : Bool
  Opcode : Nat
  Authoritative : Bool
  Truncated : Bool
  RecursionDesired : Bool
  RecursionAvailable : Bool
  Zero : Bool
  AuthenticatedData : Bool
  CheckingDisabled : Bool
  Rcode : Nat
  Question : List Question
  Answer : List RR
  Ns : List RR
  Extra : List RR
  deriving DecidableEq, Repr

/-- The value of `new(dns.Msg)`: every field at its zero value. -/
def Msg.new : Msg :=
  { Id := 0, Response := false, Opcode := 0, Authoritative := false, Truncated := false,
    RecursionDesired := false, RecursionAvailable := false, Zero := false,
    AuthenticatedData := false, CheckingDisabled := false, Rcode := 0,
    Question := [], Answer := [], Ns := [], Extra := [] }

/-- Equality of results is decidable when equality of errors and of values is. -/
instance instDecidableEqExcept {ε α : Type} [DecidableEq ε] [DecidableEq α] :
    DecidableEq (Except ε α)
  | .ok a, .ok b =>
    if h : a = b then isTrue (by rw [h]) else isFalse (fun e => h (by cases e; rfl))
  | .error a, .error b =>
    if h : a = b then isTrue (by rw [h]) else isFalse (fun e => h (by cases e; rfl))
  | .ok _, .error _ => isFalse (fun e => by cases e)
  | .error _, .ok _ => isFalse (fun e => by cases e)

/-! ## Go maps of record slices -/

/-- A Go `map[K][]dns.RR`, as the list of its entries. -/
abbrev GoMap (κ : Type) := List (κ × List RR)

/-- The expression `m[k]`: the value stored under `k`, or `nil` when `k` is absent. -/
def GoMap.index {κ : Type} [DecidableEq κ] : GoMap κ → κ → List RR
  | [], _ => []
  | (k', v) :: rest, k => if k' = k then v else GoMap.index rest k

/-- The statement `m[k] = v`: overwrite the entry of `k`, or add one. -/
def GoMap.assign {κ : Type} [DecidableEq κ] : GoMap κ → κ → List RR → GoMap κ
  | [], k, v => [(k, v)]
  | (k', v') :: rest, k, v =>
    if k' = k then (k, v) :: rest else (k', v') :: GoMap.assign rest k v

/-- The keys of a map. -/
def GoMap.keys {κ : Type} (m : GoMap κ) : List κ := m.map Prod.fst

/-- The number of records stored in a map, all entries together. -/
def GoMap.total {κ : Type} (m : GoMap κ) : Nat := (m.map (fun e => e.2.length)).sum

/-! ## Startup: `runE` -/

/-- The function `slices.IndexFunc`: the first index whose element satisfies `f`, or `-1`. -/
def IndexFunc {α : Type} (s : List α) (f : α → Bool) : Int :=
  go s 0
where
  /-- The scan of `IndexFunc` from position `i` on. -/
  go : List α → Nat → Int
    | [], _ => -1
    | x :: xs, i => if f x then (i : Int) else go xs (i + 1)

/-- The type assertion `rr.(*dns.SOA)` on a parsed record: it holds exactly for the
records the parser built as SOA records, those of type `TypeSOA`. -/
def assertSOA (rr : RR) : Option RR :=
  if rr.Hdr.Rrtype = TypeSOA then some rr else none

/-- The loop of `runE` that fills `bySubZones` (lines 98-103). -/
def bySubZones (records : List RR) : GoMap String :=
  records.foldl
    (fun m rr =>
      let zoneID := rr.Hdr.Name
      GoMap.assign m zoneID (GoMap.index m zoneID ++ [rr]))
    []

/-- The loop of `dnsZoneHandler` that fills `recordsByType` (lines 139-142). -/
def recordsByType (records : List RR) : GoMap Nat :=
  records.foldl
    (fun m rr => GoMap.assign m rr.Hdr.Rrtype (GoMap.index m rr.Hdr.Rrtype ++ [rr]))
    []

/-- The closure `dnsZoneHandler` hands to `dns.HandleFunc`: the pattern it is
registered under and the variables it captures. -/
structure ZoneHandler where
  zoneID : String
  recordsByType : GoMap Nat
  soa : RR
  deriving DecidableEq, Repr

/-- The function `dnsZoneHandler`: build the type index of one owner's records and
register the handler under `zoneID`. The result is the registration made. -/
def dnsZoneHandler (zoneID : String) (records : List RR) (soa : RR) : ZoneHandler :=
  { zoneID := zoneID, recordsByType := recordsByType records, soa := soa }

/-- Why startup stopped before the listeners were started. -/
inductive Fatal where
  | ensureFailed (message : String)
  | indexOutOfRange
  | typeAssertionFailed
  deriving DecidableEq, Repr

/-- The state `runE` reaches when it gets to wait for the termination signal: the
SOA it selected, the groups it built, the calls it made to `dns.HandleFunc` and the
networks of the servers it started. -/
structure Startup where
  soa : RR
  bySubZones : GoMap String
  handlers : List ZoneHandler
  listeners : List String
  deriving DecidableEq, Repr

/-- The function `runE` from the parsed records on (lines 91-123). The handlers are
listed in the order of the entries of `bySubZones`; Go ranges over a map in an
unspecified order. -/
def runE (records : List RR) : Except Fatal Startup :=
  let soaIdx := IndexFunc records (fun r => r.Hdr.Rrtype == TypeSOA)
  if soaIdx = -1 then
    .error (.ensureFailed "No SOA record found in zone file")
  else
    match records[soaIdx.toNat]? with
    | none => .error .indexOutOfRange
    | some rr =>
      match assertSOA rr with
      | none => .error .typeAssertionFailed
      | some soa =>
        let groups := bySubZones records
        let handlers := groups.map (fun e => dnsZoneHandler e.1 e.2 soa)
        .ok { soa := soa, bySubZones := groups, handlers := handlers,
              listeners := ["udp", "tcp"] }

/-- The handlers a run of `runE` registers: none when it stops at a fatal error,
which happens before the registration loop. -/
def registered (records : List RR) : List ZoneHandler :=
  match runE records with
  | .ok s => s.handlers
  | .error _ => []

/-- The listeners a run of `runE` starts: none when it stops at a fatal error. -/
def listening (records : List RR) : List String :=
  match runE records with
  | .ok s => s.listeners
  | .error _ => []

/-! ## Request handling -/

/-- A run-time panic of the handler. -/
inductive Panic where
  | indexOutOfRange (index length : Nat)
  deriving DecidableEq, Repr

/-- What one call of the handler does: the counter after the call, the identifier
it took, the two fields it logs on reception, and the message it hands to
`w.WriteMsg`, or the panic that stopped it before. -/
structure Handled where
  globalID : Nat
  requestID : Nat
  hasQuestion : Bool
  questionType : Nat
  written : Except Panic Msg
  deriving DecidableEq, Repr

/-- The method `Inc` of the 64-bit atomic counter: add one, wrap at `2^64`, and
return the new value. -/
def Inc (globalID : Nat) : Nat := (globalID + 1) % 2 ^ 64

/-- The body of the handler closure (lines 145-164). `SetReply` is the library's
`(*dns.Msg).SetReply`, applied to the fresh message and the request. -/
def ZoneHandler.ServeDNS (SetReply : Msg → Msg → Msg) (h : ZoneHandler)
    (globalID : Nat) (r : Msg) : Handled :=
  let requestID := Inc globalID
  let hasQuestion := decide (r.Question.length > 0)
  let questionType :=
    if hasQuestion then
      match r.Question[0]? with
      | some q => q.Qtype
      | none => 0
    else 0
  let m := SetReply Msg.new r
  let m := { m with Authoritative := true }
  let m := { m with Ns := [h.soa] }
  let written : Except Panic Msg :=
    match r.Question[0]? with
    | none => .error (.indexOutOfRange 0 r.Question.length)
    | some q => .ok { m with Answer := GoMap.index h.recordsByType q.Qtype }
  { globalID := requestID, requestID := requestID, hasQuestion := hasQuestion,
    questionType := questionType, written := written }

/-- A model of the library's `SetReply`, used to evaluate the examples only (the
theorems hold for every function put in its place): copy the identifier, mark the
message as a response, copy the opcode (and, for a query, the RD and CD bits), clear
the response code and keep the first question when there is one. -/
def SetReply (m request : Msg) : Msg :=
  let m := { m with Id := request.Id, Response := true, Opcode := request.Opcode }
  let m :=
    if m.Opcode = 0 then
      { m with RecursionDesired := request.RecursionDesired,
               CheckingDisabled := request.CheckingDisabled }
    else m
  let m := { m with Rcode := 0 }
  match request.Question with
  | [] => m
  | q :: _ => { m with Question := [q] }

/-- Requests handled one after the other from counter value `globalID` on, each by
the handler it was routed to. A panic ends the process: the requests after it are
not handled. -/
def serve (SetReply : Msg → Msg → Msg) : Nat → List (ZoneHandler × Msg) → List Handled
  | _, [] => []
  | globalID, (h, r) :: rest =>
    let out := h.ServeDNS SetReply globalID r
    match out.written with
    | .error _ => [out]
    | .ok _ => out :: serve SetReply out.globalID rest

/-! ## The zone of the README -/

/-- A record of the example zone, class IN and TTL 3600. -/
def rr (name : String) (rrtype : Nat) (rdata : String) : RR :=
  { Hdr := { Name := name, Rrtype := rrtype, Class := ClassINET, Ttl := 3600 }, Rdata := rdata }

/-- The records the parser yields for the zone file of the command's description. -/
def readmeZone : List RR :=
  [ rr "matt.local." TypeSOA "ns.matt.local. username.matt.local. 2020091025 7200 3600 1209600 3600",
    rr "matt.local." TypeNS "ns.matt.local.",
    rr "matt.local." TypeA "127.0.0.1",
    rr "ns.matt.local." TypeA "127.0.0.1",
    rr "workers.matt.local." TypeA "12.0.0.2",
    rr "workers.matt.local." TypeA "12.0.0.3" ]

/-- A query message with the given questions. -/
def query (id : Nat) (questions : List Question) : Msg :=
  { Msg.new with Id := id, RecursionDesired := true, Question := questions }

/-! ## Auxiliary definitions -/

/-- One turn of either grouping loop: append `rr` to the slice stored under its key. -/
def groupStep {κ : Type} [DecidableEq κ] (key : RR → κ) (m : GoMap κ) (rr : RR) : GoMap κ :=
  GoMap.assign m (key rr) (GoMap.index m (key rr) ++ [rr])

/-- The test `runE` passes to `slices.IndexFunc`. -/
def isSOA (r : RR) : Bool := r.Hdr.Rrtype == TypeSOA

/-! ## Lemmas on Go maps -/

theorem bySubZones_eq (records : List RR) :
    bySubZones records = records.foldl (groupStep (fun rr => rr.Hdr.Name)) [] := rfl

theorem recordsByType_eq (records : List RR) :
    recordsByType records = records.foldl (groupStep (fun rr => rr.Hdr.Rrtype)) [] := rfl

theorem index_assign {κ : Type} [DecidableEq κ] (m : GoMap κ) (k k' : κ) (v : List RR) :
    GoMap.index (GoMap.assign m k v) k' = if k = k' then v else GoMap.index m k' := by
  induction m with
  | nil => simp [GoMap.assign, GoMap.index]
  | cons e rest ih =>
    obtain ⟨k0, v0⟩ := e
    by_cases h0 : k0 = k
    · subst h0
      by_cases h1 : k0 = k' <;> simp [GoMap.assign, GoMap.index, h1]
    · by_cases h1 : k0 = k'
      · subst h1
        have : ¬ k = k0 := fun e => h0 e.symm
        simp [GoMap.assign, GoMap.index, h0, this]
      · simp [GoMap.assign, GoMap.index, h0, h1, ih]

theorem keys_assign {κ : Type} [DecidableEq κ] (m : GoMap κ) (k : κ) (v : List RR) :
    GoMap.keys (GoMap.assign m k v) =
      if k ∈ GoMap.keys m then GoMap.keys m else GoMap.keys m ++ [k] := by
  induction m with
  | nil => simp [GoMap.assign, GoMap.keys]
  | cons e rest ih =>
    obtain ⟨k0, v0⟩ := e
    by_cases h0 : k0 = k
    · subst h0
      simp [GoMap.assign, GoMap.keys]
    · have h0' : ¬ k = k0 := fun e => h0 e.symm
      simp only [GoMap.keys] at ih
      by_cases hk : k ∈ List.map Prod.fst rest
      · simp [GoMap.assign, GoMap.keys, h0, h0', hk, ih]
      · simp [GoMap.assign, GoMap.keys, h0, h0', hk, ih]

theorem total_assign_append {κ : Type} [DecidableEq κ] (m : GoMap κ) (k : κ) (r : RR) :
    GoMap.total (GoMap.assign m k (GoMap.index m k ++ [r])) = GoMap.total m + 1 := by
  induction m with
  | nil => simp [GoMap.assign, GoMap.index, GoMap.total]
  | cons e rest ih =>
    obtain ⟨k0, v0⟩ := e
    by_cases h0 : k0 = k
    · subst h0
      simp [GoMap.assign, GoMap.index, GoMap.total]
      omega
    · simp only [GoMap.total] at ih
      simp [GoMap.assign, GoMap.index, GoMap.total, h0, ih]
      omega

theorem entry_eq_index {κ : Type} [DecidableEq κ] (m : GoMap κ)
    (hm : (GoMap.keys m).Nodup) (k : κ) (v : List RR) (h : (k, v) ∈ m) :
    GoMap.index m k = v := by
  induction m with
  | nil => simp at h
  | cons e rest ih =>
    obtain ⟨k0, v0⟩ := e
    simp only [GoMap.keys, List.map_cons, List.nodup_cons] at hm
    rcases List.mem_cons.mp h with h | h
    · cases h
      simp [GoMap.index]
    · have hne : ¬ k0 = k := by
        intro e
        subst e
        exact hm.1 (List.mem_map.mpr ⟨(k0, v), h, rfl⟩)
      simp only [GoMap.index, hne, if_false]
      exact ih hm.2 h

theorem fold_index {κ : Type} [DecidableEq κ] (key : RR → κ) (records : List RR)
    (m : GoMap κ) (k : κ) :
    GoMap.index (records.foldl (groupStep key) m) k =
      GoMap.index m k ++ records.filter (fun rr => decide (key rr = k)) := by
  induction records generalizing m with
  | nil => simp
  | cons r rest ih =>
    rw [List.foldl_cons, ih, groupStep, index_assign]
    by_cases h : key r = k
    · subst h
      simp [List.filter_cons]
    · simp [List.filter_cons, h]

theorem fold_keys_nodup {κ : Type} [DecidableEq κ] (key : RR → κ) (records : List RR)
    (m : GoMap κ) (hm : (GoMap.keys m).Nodup) :
    (GoMap.keys (records.foldl (groupStep key) m)).Nodup := by
  induction records generalizing m with
  | nil => simpa using hm
  | cons r rest ih =>
    rw [List.foldl_cons]
    apply ih
    rw [groupStep, keys_assign]
    by_cases hk : key r ∈ GoMap.keys m
    · simpa [hk] using hm
    · simp only [hk, if_false]
      exact List.Nodup.append hm (List.nodup_singleton _) (by simpa using hk)

theorem fold_mem_keys {κ : Type} [DecidableEq κ] (key : RR → κ) (records : List RR)
    (m : GoMap κ) (k : κ) :
    k ∈ GoMap.keys (records.foldl (groupStep key) m) ↔
      k ∈ GoMap.keys m ∨ ∃ rr ∈ records, key rr = k := by
  induction records generalizing m with
  | nil => simp
  | cons r rest ih =>
    rw [List.foldl_cons, ih, groupStep, keys_assign]
    by_cases hk : key r ∈ GoMap.keys m
    · simp only [hk, if_true, List.mem_cons, exists_eq_or_imp]
      constructor
      · rintro (h | h)
        · exact Or.inl h
        · exact Or.inr (Or.inr h)
      · rintro (h | h | h)
        · exact Or.inl h
        · exact Or.inl (h ▸ hk)
        · exact Or.inr h
    · have hs : ∀ x : κ, x ∈ [key r] ↔ x = key r := fun x => List.mem_singleton
      simp only [hk, if_false, List.mem_append, hs, List.mem_cons, exists_eq_or_imp]
      constructor
      · rintro ((h | h) | h)
        · exact Or.inl h
        · exact Or.inr (Or.inl h.symm)
        · exact Or.inr (Or.inr h)
      · rintro (h | h | h)
        · exact Or.inl (Or.inl h)
        · exact Or.inl (Or.inr h.symm)
        · exact Or.inr h

theorem fold_total {κ : Type} [DecidableEq κ] (key : RR → κ) (records : List RR)
    (m : GoMap κ) :
    GoMap.total (records.foldl (groupStep key) m) = GoMap.total m + records.length := by
  induction records generalizing m with
  | nil => simp
  | cons r rest ih =>
    rw [List.foldl_cons, ih, groupStep, total_assign_append, List.length_cons]
    omega

/-! ## Lemmas on startup -/

theorem IndexFunc_go_none {α : Type} (f : α → Bool) (s : List α) (i : Nat)
    (h : ∀ x ∈ s, f x = false) : IndexFunc.go f s i = -1 := by
  induction s generalizing i with
  | nil => rfl
  | cons x xs ih =>
    have hx : f x = false := h x (List.mem_cons_self _ _)
    simp only [IndexFunc.go, hx, Bool.false_eq_true, if_false]
    exact ih (i + 1) (fun y hy => h y (List.mem_cons_of_mem _ hy))

theorem IndexFunc_go_first {α : Type} (f : α → Bool) (pre : List α) (x : α) (post : List α)
    (i : Nat) (hpre : ∀ y ∈ pre, f y = false) (hx : f x = true) :
    IndexFunc.go f (pre ++ x :: post) i = ((i + pre.length : Nat) : Int) := by
  induction pre generalizing i with
  | nil => simp [IndexFunc.go, hx]
  | cons y ys ih =>
    have hy : f y = false := hpre y (List.mem_cons_self _ _)
    have hstep : IndexFunc.go f (y :: ys ++ x :: post) i
        = IndexFunc.go f (ys ++ x :: post) (i + 1) := by
      show IndexFunc.go f (y :: (ys ++ x :: post)) i = _
      simp only [IndexFunc.go, hy, Bool.false_eq_true, if_false]
    rw [hstep, ih (i + 1) (fun z hz => hpre z (List.mem_cons_of_mem _ hz))]
    simp only [List.length_cons]
    congr 1
    omega

theorem exists_first {α : Type} (f : α → Bool) (s : List α) (h : ∃ x ∈ s, f x = true) :
    ∃ pre x post, s = pre ++ x :: post ∧ f x = true ∧ ∀ y ∈ pre, f y = false := by
  induction s with
  | nil => simp at h
  | cons a rest ih =>
    by_cases ha : f a = true
    · exact ⟨[], a, rest, rfl, ha, by simp⟩
    · have hrest : ∃ x ∈ rest, f x = true := by
        obtain ⟨x, hx, hfx⟩ := h
        rcases List.mem_cons.mp hx with e | hx
        · exact absurd (e ▸ hfx) ha
        · exact ⟨x, hx, hfx⟩
      obtain ⟨pre, x, post, hs, hfx, hpre⟩ := ih hrest
      refine ⟨a :: pre, x, post, by rw [hs]; rfl, hfx, ?_⟩
      intro y hy
      rcases List.mem_cons.mp hy with e | hy
      · rw [e]; simpa using ha
      · exact hpre y hy

theorem isSOA_iff (r : RR) : isSOA r = true ↔ r.Hdr.Rrtype = TypeSOA := by
  simp [isSOA]

theorem isSOA_false_iff (r : RR) : isSOA r = false ↔ r.Hdr.Rrtype ≠ TypeSOA := by
  simp [isSOA]

theorem runE_missing (records : List RR) (h : ∀ r ∈ records, r.Hdr.Rrtype ≠ TypeSOA) :
    runE records = .error (.ensureFailed "No SOA record found in zone file") := by
  have hgo : IndexFunc records isSOA = -1 :=
    IndexFunc_go_none isSOA records 0 (fun r hr => (isSOA_false_iff r).mpr (h r hr))
  have hgo' : IndexFunc records (fun r => r.Hdr.Rrtype == TypeSOA) = -1 := hgo
  simp only [runE, hgo', if_true]

theorem runE_first (pre : List RR) (soa : RR) (post : List RR)
    (hsoa : soa.Hdr.Rrtype = TypeSOA) (hpre : ∀ y ∈ pre, y.Hdr.Rrtype ≠ TypeSOA) :
    runE (pre ++ soa :: post) =
      .ok { soa := soa, bySubZones := bySubZones (pre ++ soa :: post),
            handlers := (bySubZones (pre ++ soa :: post)).map
              (fun e => dnsZoneHandler e.1 e.2 soa),
            listeners := ["udp", "tcp"] } := by
  have hgo : IndexFunc (pre ++ soa :: post) isSOA = ((0 + pre.length : Nat) : Int) :=
    IndexFunc_go_first isSOA pre soa post 0
      (fun y hy => (isSOA_false_iff y).mpr (hpre y hy)) ((isSOA_iff soa).mpr hsoa)
  have hgo' : IndexFunc (pre ++ soa :: post) (fun r => r.Hdr.Rrtype == TypeSOA)
      = (pre.length : Int) := by
    have := hgo
    simpa using this
  have hne : ¬ ((pre.length : Int) = -1) := by omega
  have hget : (pre ++ soa :: post)[pre.length]? = some soa := by
    rw [List.getElem?_append_right (Nat.le_refl _)]
    simp
  simp only [runE, hgo', hne, if_false, Int.toNat_ofNat, hget, assertSOA, hsoa, if_true]

theorem runE_cases (records : List RR) :
    ((∀ r ∈ records, r.Hdr.Rrtype ≠ TypeSOA) ∧
      runE records = .error (.ensureFailed "No SOA record found in zone file")) ∨
    (∃ pre soa post, records = pre ++ soa :: post ∧ soa.Hdr.Rrtype = TypeSOA ∧
      (∀ y ∈ pre, y.Hdr.Rrtype ≠ TypeSOA) ∧
      runE records =
        .ok { soa := soa, bySubZones := bySubZones records,
              handlers := (bySubZones records).map (fun e => dnsZoneHandler e.1 e.2 soa),
              listeners := ["udp", "tcp"] }) := by
  by_cases h : ∃ r ∈ records, isSOA r = true
  · right
    obtain ⟨pre, soa, post, hs, hsoa, hpre⟩ := exists_first isSOA records h
    refine ⟨pre, soa, post, hs, (isSOA_iff soa).mp hsoa,
      fun y hy => (isSOA_false_iff y).mp (hpre y hy), ?_⟩
    rw [hs]
    exact runE_first pre soa post ((isSOA_iff soa).mp hsoa)
      (fun y hy => (isSOA_false_iff y).mp (hpre y hy))
  · left
    have h' : ∀ r ∈ records, r.Hdr.Rrtype ≠ TypeSOA := by
      intro r hr e
      exact h ⟨r, hr, (isSOA_iff r).mpr e⟩
    exact ⟨h', runE_missing records h'⟩

theorem find_first (pre : List RR) (soa : RR) (post : List RR)
    (hsoa : soa.Hdr.Rrtype = TypeSOA) (hpre : ∀ y ∈ pre, y.Hdr.Rrtype ≠ TypeSOA) :
    (pre ++ soa :: post).find? (fun r => r.Hdr.Rrtype == TypeSOA) = some soa := by
  induction pre with
  | nil => simp [List.find?, hsoa]
  | cons y ys ih =>
    have hy : y.Hdr.Rrtype ≠ TypeSOA := hpre y (List.mem_cons_self _ _)
    simp only [List.cons_append, List.find?, beq_iff_eq, hy]
    have : (y.Hdr.Rrtype == TypeSOA) = false := by simpa using hy
    simp only [this]
    exact ih (fun z hz => hpre z (List.mem_cons_of_mem _ hz))

/-! ## Lemmas on the handler -/

theorem ServeDNS_written (SetReply : Msg → Msg → Msg) (h : ZoneHandler) (c : Nat)
    (r : Msg) (q : Question) (qs : List Question) (hq : r.Question = q :: qs) :
    (h.ServeDNS SetReply c r).written =
      .ok { SetReply Msg.new r with
            Authoritative := true, Ns := [h.soa],
            Answer := GoMap.index h.recordsByType q.Qtype } := by
  simp only [ZoneHandler.ServeDNS, hq, List.getElem?_cons_zero]

theorem ServeDNS_of_question (SetReply : Msg → Msg → Msg) (h : ZoneHandler) (c : Nat)
    (r : Msg) (q : Question) (qs : List Question) (hq : r.Question = q :: qs) :
    ∃ m, (h.ServeDNS SetReply c r).written = .ok m ∧
      m.Answer = GoMap.index h.recordsByType q.Qtype ∧ m.Ns = [h.soa] ∧
      m.Authoritative = true :=
  ⟨_, ServeDNS_written SetReply h c r q qs hq, rfl, rfl, rfl⟩

theorem ServeDNS_no_question (SetReply : Msg → Msg → Msg) (h : ZoneHandler) (c : Nat)
    (r : Msg) (hq : r.Question = []) :
    (h.ServeDNS SetReply c r).written = .error (.indexOutOfRange 0 0) := by
  simp [ZoneHandler.ServeDNS, hq]

theorem ServeDNS_of_written (SetReply : Msg → Msg → Msg) (h : ZoneHandler) (c : Nat)
    (r m : Msg) (hm : (h.ServeDNS SetReply c r).written = .ok m) :
    ∃ q qs, r.Question = q :: qs ∧
      m.Answer = GoMap.index h.recordsByType q.Qtype ∧ m.Ns = [h.soa] ∧
      m.Authoritative = true := by
  cases hq : r.Question with
  | nil =>
    rw [ServeDNS_no_question SetReply h c r hq] at hm
    cases hm
  | cons q qs =>
    obtain ⟨m', hm', ha, hn, hf⟩ := ServeDNS_of_question SetReply h c r q qs hq
    rw [hm'] at hm
    cases hm
    exact ⟨q, qs, rfl, ha, hn, hf⟩

theorem bySubZones_index (R : List RR) (O : String) :
    GoMap.index (bySubZones R) O = R.filter (fun rr => decide (rr.Hdr.Name = O)) := by
  rw [bySubZones_eq, fold_index]
  simp [GoMap.index]

theorem bySubZones_nodup (R : List RR) : (GoMap.keys (bySubZones R)).Nodup := by
  rw [bySubZones_eq]
  exact fold_keys_nodup _ R [] (by simp [GoMap.keys])

theorem bySubZones_mem_keys (R : List RR) (O : String) :
    O ∈ GoMap.keys (bySubZones R) ↔ ∃ rr ∈ R, rr.Hdr.Name = O := by
  rw [bySubZones_eq, fold_mem_keys]
  simp [GoMap.keys]

theorem bySubZones_entry (R : List RR) (e : String × List RR) (he : e ∈ bySubZones R) :
    e.2 = R.filter (fun rr => decide (rr.Hdr.Name = e.1)) := by
  rw [← bySubZones_index R e.1]
  exact (entry_eq_index (bySubZones R) (bySubZones_nodup R) e.1 e.2 he).symm

theorem recordsByType_index (S : List RR) (T : Nat) :
    GoMap.index (recordsByType S) T = S.filter (fun rr => decide (rr.Hdr.Rrtype = T)) := by
  rw [recordsByType_eq, fold_index]
  simp [GoMap.index]

theorem runE_ok_eq (R : List RR) (s : Startup) (hs : runE R = .ok s) :
    s.bySubZones = bySubZones R ∧
    s.handlers = (bySubZones R).map (fun e => dnsZoneHandler e.1 e.2 s.soa) ∧
    s.listeners = ["udp", "tcp"] ∧
    ∃ pre post, R = pre ++ s.soa :: post ∧ s.soa.Hdr.Rrtype = TypeSOA ∧
      ∀ y ∈ pre, y.Hdr.Rrtype ≠ TypeSOA := by
  rcases runE_cases R with ⟨_, he⟩ | ⟨pre, soa, post, hR, hsoa, hpre, hok⟩
  · rw [he] at hs
    cases hs
  · rw [hok] at hs
    cases hs
    exact ⟨rfl, rfl, rfl, pre, post, hR, hsoa, hpre⟩

theorem runE_ok_of_soa (R : List RR) (h : ∃ rr ∈ R, rr.Hdr.Rrtype = TypeSOA) :
    ∃ s, runE R = .ok s := by
  rcases runE_cases R with ⟨hno, _⟩ | ⟨_, _, _, _, _, _, hok⟩
  · obtain ⟨rr, hrr, ht⟩ := h
    exact absurd ht (hno rr hrr)
  · exact ⟨_, hok⟩

theorem mem_handlers (R : List RR) (s : Startup) (hs : runE R = .ok s) (h : ZoneHandler) :
    h ∈ s.handlers ↔
      (∃ rr ∈ R, rr.Hdr.Name = h.zoneID) ∧
      h = dnsZoneHandler h.zoneID
        (R.filter (fun rr => decide (rr.Hdr.Name = h.zoneID))) s.soa := by
  obtain ⟨_, hh, _, _⟩ := runE_ok_eq R s hs
  rw [hh, List.mem_map]
  constructor
  · rintro ⟨e, he, rfl⟩
    refine ⟨(bySubZones_mem_keys R e.1).mp (List.mem_map.mpr ⟨e, he, rfl⟩), ?_⟩
    show dnsZoneHandler e.1 e.2 s.soa
      = dnsZoneHandler e.1 (R.filter (fun rr => decide (rr.Hdr.Name = e.1))) s.soa
    rw [← bySubZones_entry R e he]
  · rintro ⟨hex, heq⟩
    obtain ⟨e, he, hk⟩ := List.mem_map.mp ((bySubZones_mem_keys R h.zoneID).mpr hex)
    refine ⟨e, he, ?_⟩
    rw [heq]
    show dnsZoneHandler e.1 e.2 s.soa = dnsZoneHandler h.zoneID _ s.soa
    rw [bySubZones_entry R e he, hk]

theorem handlers_nodup (R : List RR) (s : Startup) (hs : runE R = .ok s) :
    (s.handlers.map ZoneHandler.zoneID).Nodup := by
  obtain ⟨_, hh, _, _⟩ := runE_ok_eq R s hs
  rw [hh, List.map_map]
  exact bySubZones_nodup R

theorem index_handler (R : List RR) (s : Startup) (hs : runE R = .ok s) (h : ZoneHandler)
    (hh : h ∈ s.handlers) (T : Nat) :
    GoMap.index h.recordsByType T =
      R.filter (fun rr => decide (rr.Hdr.Name = h.zoneID ∧ rr.Hdr.Rrtype = T)) := by
  have heq := ((mem_handlers R s hs h).mp hh).2
  have hrec : h.recordsByType
      = recordsByType (R.filter (fun rr => decide (rr.Hdr.Name = h.zoneID))) := by
    conv_lhs => rw [heq]
    rfl
  rw [hrec, recordsByType_index, List.filter_filter]
  congr 1
  funext rr
  simp [Bool.and_comm]

theorem ServeDNS_counter (SetReply : Msg → Msg → Msg) (h : ZoneHandler) (c : Nat) (r : Msg) :
    (h.ServeDNS SetReply c r).globalID = (c + 1) % 2 ^ 64 ∧
    (h.ServeDNS SetReply c r).requestID = (c + 1) % 2 ^ 64 :=
  ⟨rfl, rfl⟩

theorem serve_ids (SetReply : Msg → Msg → Msg) (reqs : List (ZoneHandler × Msg)) (c : Nat)
    (hlen : c + reqs.length < 2 ^ 64) :
    (serve SetReply c reqs).map Handled.requestID
      = List.range' (c + 1) (serve SetReply c reqs).length := by
  induction reqs generalizing c with
  | nil => simp [serve]
  | cons e rest ih =>
    obtain ⟨h, r⟩ := e
    simp only [List.length_cons] at hlen
    have hc : (c + 1) % 2 ^ 64 = c + 1 := Nat.mod_eq_of_lt (by omega)
    have hid : (h.ServeDNS SetReply c r).requestID = c + 1 := by
      rw [(ServeDNS_counter SetReply h c r).2, hc]
    have hg : (h.ServeDNS SetReply c r).globalID = c + 1 := by
      rw [(ServeDNS_counter SetReply h c r).1, hc]
    cases hw : (h.ServeDNS SetReply c r).written with
    | error p =>
      simp only [serve, hw, List.map_cons, List.map_nil, List.length_singleton, hid]
      rfl
    | ok m =>
      simp only [serve, hw, List.map_cons, List.length_cons, hid, hg, List.range'_succ]
      rw [ih (c + 1) (by omega)]

theorem serve_length (SetReply : Msg → Msg → Msg) (reqs : List (ZoneHandler × Msg)) (c : Nat)
    (hq : ∀ e ∈ reqs, e.2.Question ≠ []) :
    (serve SetReply c reqs).length = reqs.length := by
  induction reqs generalizing c with
  | nil => simp [serve]
  | cons e rest ih =>
    obtain ⟨h, r⟩ := e
    have hr : r.Question ≠ [] := hq (h, r) (List.mem_cons_self _ _)
    cases hqs : r.Question with
    | nil => exact absurd hqs hr
    | cons q qs =>
      obtain ⟨m, hm, _⟩ := ServeDNS_of_question SetReply h c r q qs hqs
      simp only [serve, hm, List.length_cons]
      rw [ih _ (fun e he => hq e (List.mem_cons_of_mem _ he))]

/-! ## Partitioning and indexing -/

/-- C2 (partition completeness, P1). For every record list `R`, the map `bySubZones`
built by the loop of `runE` holds under every owner name `O` the records of `R` whose
owner name is exactly `O`, in file order; its keys are distinct and are the owner
names occurring in `R`; every stored group is the group of its key; a record of `R`
lies in the group of `O` only for `O` its own owner name, with the multiplicity it
has in `R`; the groups hold `R.length` records in all; and this map is the one a
successful run of `runE` ends with. -/
theorem partition_complete (R : List RR) :
    (∀ O : String,
      GoMap.index (bySubZones R) O = R.filter (fun rr => decide (rr.Hdr.Name = O))) ∧
    (GoMap.keys (bySubZones R)).Nodup ∧
    (∀ O : String, O ∈ GoMap.keys (bySubZones R) ↔ ∃ rr ∈ R, rr.Hdr.Name = O) ∧
    (∀ e ∈ bySubZones R, e.2 = R.filter (fun rr => decide (rr.Hdr.Name = e.1))) ∧
    (∀ rr ∈ R, ∀ O : String, rr ∈ GoMap.index (bySubZones R) O ↔ O = rr.Hdr.Name) ∧
    (∀ (rr : RR) (O : String),
      (GoMap.index (bySubZones R) O).count rr = if rr.Hdr.Name = O then R.count rr else 0) ∧
    GoMap.total (bySubZones R) = R.length ∧
    (∀ s, runE R = .ok s → s.bySubZones = bySubZones R) := by
  have hidx := bySubZones_index R
  refine ⟨hidx, bySubZones_nodup R, bySubZones_mem_keys R, bySubZones_entry R, ?_, ?_, ?_, ?_⟩
  · intro rr hrr O
    rw [hidx O, List.mem_filter]
    constructor
    · intro h
      exact (of_decide_eq_true h.2).symm
    · intro h
      exact ⟨hrr, decide_eq_true h.symm⟩
  · intro rr O
    rw [hidx O]
    by_cases h : rr.Hdr.Name = O
    · rw [if_pos h]
      exact List.count_filter (decide_eq_true h)
    · rw [if_neg h]
      apply List.count_eq_zero_of_not_mem
      intro hmem
      exact h (of_decide_eq_true (List.mem_filter.mp hmem).2)
  · rw [bySubZones_eq, fold_total]
    simp [GoMap.total]
  · intro s hs
    exact (runE_ok_eq R s hs).1

/-- C3 (type index correctness, P2). For every record sequence `S` handed to
`dnsZoneHandler` and every record type `T`, the lookup `recordsByType[T]` is the
sub-sequence of `S` of the records of type `T`, in the order of `S`; when no record of
`S` has type `T` the lookup is the empty sequence. The lookup is a total function:
it has no error result. -/
theorem type_index_correct (S : List RR) (T : Nat) :
    GoMap.index (recordsByType S) T = S.filter (fun rr => decide (rr.Hdr.Rrtype = T)) ∧
    (∀ (zoneID : String) (soa : RR),
      GoMap.index (dnsZoneHandler zoneID S soa).recordsByType T =
        S.filter (fun rr => decide (rr.Hdr.Rrtype = T))) ∧
    ((∀ rr ∈ S, rr.Hdr.Rrtype ≠ T) → GoMap.index (recordsByType S) T = []) := by
  have hidx := recordsByType_index S T
  refine ⟨hidx, fun _ _ => hidx, ?_⟩
  intro h
  rw [hidx, List.filter_eq_nil_iff]
  intro rr hrr
  simpa using h rr hrr

/-! ## SOA location -/

/-- C4 (SOA location, P5). For every record list `R`, `runE` stops with the missing-SOA
error exactly when `R` has no record of type SOA, and it has no other fatal exit;
in that case it registers no handler and starts no listener. When `R` has a record
of type SOA, `runE` succeeds and the SOA it selects is the first record of `R` of
type SOA: every record before it has another type. -/
theorem soa_location (R : List RR) :
    (runE R = .error (.ensureFailed "No SOA record found in zone file") ↔
      ∀ rr ∈ R, rr.Hdr.Rrtype ≠ TypeSOA) ∧
    (∀ e, runE R = .error e → e = .ensureFailed "No SOA record found in zone file") ∧
    ((∀ rr ∈ R, rr.Hdr.Rrtype ≠ TypeSOA) → registered R = [] ∧ listening R = []) ∧
    ((∃ rr ∈ R, rr.Hdr.Rrtype = TypeSOA) →
      ∃ s pre post, runE R = .ok s ∧ R = pre ++ s.soa :: post ∧
        s.soa.Hdr.Rrtype = TypeSOA ∧ (∀ y ∈ pre, y.Hdr.Rrtype ≠ TypeSOA) ∧
        R.find? (fun r => r.Hdr.Rrtype == TypeSOA) = some s.soa ∧
        s.listeners = ["udp", "tcp"]) := by
  rcases runE_cases R with ⟨hno, he⟩ | ⟨pre, soa, post, hR, hsoa, hpre, hok⟩
  · refine ⟨⟨fun _ => hno, fun _ => he⟩, ?_, ?_, ?_⟩
    · intro e h
      rw [he] at h
      cases h
      rfl
    · intro _
      simp [registered, listening, he]
    · rintro ⟨rr, hrr, ht⟩
      exact absurd ht (hno rr hrr)
  · have hmem : soa ∈ R := by rw [hR]; simp
    refine ⟨⟨?_, ?_⟩, ?_, ?_, ?_⟩
    · intro h
      rw [hok] at h
      cases h
    · intro h
      exact absurd hsoa (h soa hmem)
    · intro e h
      rw [hok] at h
      cases h
    · intro h
      exact absurd hsoa (h soa hmem)
    · intro _
      refine ⟨_, pre, post, hok, hR, hsoa, hpre, ?_, rfl⟩
      rw [hR]
      exact find_first pre soa post hsoa hpre

/-! ## Registration -/

/-- C9 (one binding per distinct owner name, Scenario C). For every record list `R`
with an SOA, `runE` succeeds and the names it passes to `dns.HandleFunc` are exactly
the owner names of the records of `R`: the list of registered names has no
duplicate and is a permutation of the distinct owner names of `R`; every registered
handler is the one `dnsZoneHandler` builds from its own name, the group of that name
and the first SOA of `R`; and a name that no record of `R` has is not registered.
All of this is independent of the order in which the map is ranged over. -/
theorem one_binding_per_owner (R : List RR) (hsoa : ∃ rr ∈ R, rr.Hdr.Rrtype = TypeSOA) :
    ∃ s, runE R = .ok s ∧
      (∀ O : String, (∃ h ∈ s.handlers, h.zoneID = O) ↔ ∃ rr ∈ R, rr.Hdr.Name = O) ∧
      (s.handlers.map ZoneHandler.zoneID).Nodup ∧
      (s.handlers.map ZoneHandler.zoneID).Perm (R.map (fun rr => rr.Hdr.Name)).dedup ∧
      (∀ h ∈ s.handlers,
        h = dnsZoneHandler h.zoneID
          (R.filter (fun rr => decide (rr.Hdr.Name = h.zoneID))) s.soa) ∧
      R.find? (fun r => r.Hdr.Rrtype == TypeSOA) = some s.soa ∧
      (∀ O : String, (∀ rr ∈ R, rr.Hdr.Name ≠ O) → ∀ h ∈ s.handlers, h.zoneID ≠ O) := by
  obtain ⟨s, hs⟩ := runE_ok_of_soa R hsoa
  have hmem : ∀ O : String, (∃ h ∈ s.handlers, h.zoneID = O) ↔ ∃ rr ∈ R, rr.Hdr.Name = O := by
    intro O
    constructor
    · rintro ⟨h, hh, rfl⟩
      exact ((mem_handlers R s hs h).mp hh).1
    · intro hex
      refine ⟨dnsZoneHandler O (R.filter (fun rr => decide (rr.Hdr.Name = O))) s.soa, ?_, rfl⟩
      exact (mem_handlers R s hs _).mpr ⟨hex, rfl⟩
  refine ⟨s, hs, hmem, handlers_nodup R s hs, ?_, ?_, ?_, ?_⟩
  · apply (List.perm_ext_iff_of_nodup (handlers_nodup R s hs) (List.nodup_dedup _)).mpr
    intro O
    rw [List.mem_dedup, List.mem_map, List.mem_map]
    constructor
    · rintro ⟨h, hh, rfl⟩
      exact (hmem h.zoneID).mp ⟨h, hh, rfl⟩
    · intro hex
      exact (hmem O).mpr hex
  · intro h hh
    exact ((mem_handlers R s hs h).mp hh).2
  · obtain ⟨_, _, _, pre, post, hR, ht, hpre⟩ := runE_ok_eq R s hs
    conv_lhs => rw [hR]
    exact find_first pre s.soa post ht hpre
  · intro O hO h hh e
    obtain ⟨rr, hrr, hn⟩ := ((mem_handlers R s hs h).mp hh).1
    exact hO rr hrr (hn.trans e)

/-- Witness of C9 on the zone of the README: the hypothesis holds there, and the three
names registered are `matt.local.`, `ns.matt.local.` and `workers.matt.local.`. -/
theorem one_binding_per_owner_readme :
    (∃ rr ∈ readmeZone, rr.Hdr.Rrtype = TypeSOA) ∧
    (∃ s, runE readmeZone = .ok s ∧
      (∀ O : String, (∃ h ∈ s.handlers, h.zoneID = O) ↔ ∃ rr ∈ readmeZone, rr.Hdr.Name = O) ∧
      (s.handlers.map ZoneHandler.zoneID).Nodup ∧
      (s.handlers.map ZoneHandler.zoneID).Perm
        (readmeZone.map (fun rr => rr.Hdr.Name)).dedup ∧
      (∀ h ∈ s.handlers,
        h = dnsZoneHandler h.zoneID
          (readmeZone.filter (fun rr => decide (rr.Hdr.Name = h.zoneID))) s.soa) ∧
      readmeZone.find? (fun r => r.Hdr.Rrtype == TypeSOA) = some s.soa ∧
      (∀ O : String, (∀ rr ∈ readmeZone, rr.Hdr.Name ≠ O) →
        ∀ h ∈ s.handlers, h.zoneID ≠ O)) ∧
    (registered readmeZone).map ZoneHandler.zoneID
      = ["matt.local.", "ns.matt.local.", "workers.matt.local."] :=
  ⟨by decide, one_binding_per_owner readmeZone (by decide), by decide⟩

/-! ## Resolution -/

/-- C1 (end-to-end resolution). For every record list `R` with an SOA, every owner
name `O` occurring in `R` and every request whose first question has type `T`
(whatever questions follow, whatever the counter), `runE` registers a handler for
`O`, and the answer section of the message that handler writes is the sub-sequence of
`R` of the records of owner name `O` and type `T`, in file order. -/
theorem end_to_end_resolution (SetReply : Msg → Msg → Msg) (R : List RR) (O : String)
    (r : Msg) (q : Question) (qs : List Question) (c : Nat)
    (hsoa : ∃ rr ∈ R, rr.Hdr.Rrtype = TypeSOA) (hO : ∃ rr ∈ R, rr.Hdr.Name = O)
    (hq : r.Question = q :: qs) :
    ∃ s, runE R = .ok s ∧ (∃ h ∈ s.handlers, h.zoneID = O) ∧
      ∀ h ∈ s.handlers, h.zoneID = O →
        ∃ m, (h.ServeDNS SetReply c r).written = .ok m ∧
          m.Answer =
            R.filter (fun rr => decide (rr.Hdr.Name = O ∧ rr.Hdr.Rrtype = q.Qtype)) := by
  obtain ⟨s, hs⟩ := runE_ok_of_soa R hsoa
  refine ⟨s, hs, ?_, ?_⟩
  · refine ⟨dnsZoneHandler O (R.filter (fun rr => decide (rr.Hdr.Name = O))) s.soa, ?_, rfl⟩
    exact (mem_handlers R s hs _).mpr ⟨hO, rfl⟩
  · intro h hh hz
    obtain ⟨m, hm, ha, _, _⟩ := ServeDNS_of_question SetReply h c r q qs hq
    refine ⟨m, hm, ?_⟩
    rw [ha, index_handler R s hs h hh q.Qtype, hz]

/-- Witness of C1 on the zone of the README: a query for type A at
`workers.matt.local.`, followed by a second question, is answered with 12.0.0.2 then
12.0.0.3. -/
theorem end_to_end_resolution_readme :
    (∃ s, runE readmeZone = .ok s ∧ (∃ h ∈ s.handlers, h.zoneID = "workers.matt.local.") ∧
      ∀ h ∈ s.handlers, h.zoneID = "workers.matt.local." →
        ∃ m, (h.ServeDNS SetReply 0
                (query 1 [⟨"workers.matt.local.", TypeA, ClassINET⟩,
                          ⟨"matt.local.", TypeNS, ClassINET⟩])).written = .ok m ∧
          m.Answer =
            readmeZone.filter
              (fun rr => decide (rr.Hdr.Name = "workers.matt.local." ∧ rr.Hdr.Rrtype = TypeA))) ∧
    readmeZone.filter
        (fun rr => decide (rr.Hdr.Name = "workers.matt.local." ∧ rr.Hdr.Rrtype = TypeA))
      = [rr "workers.matt.local." TypeA "12.0.0.2", rr "workers.matt.local." TypeA "12.0.0.3"] :=
  ⟨end_to_end_resolution SetReply readmeZone "workers.matt.local."
      (query 1 [⟨"workers.matt.local.", TypeA, ClassINET⟩, ⟨"matt.local.", TypeNS, ClassINET⟩])
      ⟨"workers.matt.local.", TypeA, ClassINET⟩ [⟨"matt.local.", TypeNS, ClassINET⟩] 0
      (by decide) (by decide) rfl,
    by decide⟩

/-- C5 (SOA uniqueness-of-use, P3). For every record list `R` with an SOA and every
owner name `O` occurring in `R`, `runE` succeeds, selects the first SOA of `R`, and
registers a handler for `O`; every registered handler answers every request that has
a question, and whenever a registered handler writes a message, whatever the owner
name, the request and the counter, the authority section of that message has
length one and its record is that first SOA. -/
theorem authority_is_first_soa (SetReply : Msg → Msg → Msg) (R : List RR) (O : String)
    (hsoa : ∃ rr ∈ R, rr.Hdr.Rrtype = TypeSOA) (hO : ∃ rr ∈ R, rr.Hdr.Name = O) :
    ∃ s, runE R = .ok s ∧
      R.find? (fun r => r.Hdr.Rrtype == TypeSOA) = some s.soa ∧
      (∃ h ∈ s.handlers, h.zoneID = O) ∧
      ∀ h ∈ s.handlers, ∀ (c : Nat) (r : Msg),
        (∀ q qs, r.Question = q :: qs → ∃ m, (h.ServeDNS SetReply c r).written = .ok m) ∧
        (∀ m, (h.ServeDNS SetReply c r).written = .ok m →
          m.Ns = [s.soa] ∧ m.Ns.length = 1) := by
  obtain ⟨s, hs⟩ := runE_ok_of_soa R hsoa
  refine ⟨s, hs, ?_, ?_, ?_⟩
  · obtain ⟨_, _, _, pre, post, hR, ht, hpre⟩ := runE_ok_eq R s hs
    conv_lhs => rw [hR]
    exact find_first pre s.soa post ht hpre
  · refine ⟨dnsZoneHandler O (R.filter (fun rr => decide (rr.Hdr.Name = O))) s.soa, ?_, rfl⟩
    exact (mem_handlers R s hs _).mpr ⟨hO, rfl⟩
  · intro h hh c r
    have hsoa' : h.soa = s.soa := by
      have heq := ((mem_handlers R s hs h).mp hh).2
      conv_lhs => rw [heq]
      rfl
    constructor
    · intro q qs hq
      obtain ⟨m, hm, _⟩ := ServeDNS_of_question SetReply h c r q qs hq
      exact ⟨m, hm⟩
    · intro m hm
      obtain ⟨_, _, _, _, hn, _⟩ := ServeDNS_of_written SetReply h c r m hm
      rw [hn, hsoa']
      exact ⟨rfl, rfl⟩

/-- Witness of C5 on the zone of the README, which has one SOA: for the owner name
`ns.matt.local.`, and for every registered handler, a query of type A gets the SOA of
`matt.local.` as its only authority record. -/
theorem authority_is_first_soa_readme :
    (∃ s, runE readmeZone = .ok s ∧
      readmeZone.find? (fun r => r.Hdr.Rrtype == TypeSOA) = some s.soa ∧
      (∃ h ∈ s.handlers, h.zoneID = "ns.matt.local.") ∧
      ∀ h ∈ s.handlers, ∀ (c : Nat) (r : Msg),
        (∀ q qs, r.Question = q :: qs → ∃ m, (h.ServeDNS SetReply c r).written = .ok m) ∧
        (∀ m, (h.ServeDNS SetReply c r).written = .ok m →
          m.Ns = [s.soa] ∧ m.Ns.length = 1)) ∧
    (registered readmeZone).map
        (fun h => (h.ServeDNS SetReply 0
          (query 1 [⟨h.zoneID, TypeA, ClassINET⟩])).written.map (fun m => m.Ns))
      = List.replicate 3 (.ok [rr "matt.local." TypeSOA
          "ns.matt.local. username.matt.local. 2020091025 7200 3600 1209600 3600"]) :=
  ⟨authority_is_first_soa SetReply readmeZone "ns.matt.local." (by decide) (by decide),
    by decide⟩

/-- C6 (authoritative flag, P4). For every record list `R` with an SOA, `runE`
succeeds and, for every registered handler, every counter value and every request:
a message the handler writes has the authoritative flag set; and when the request
has a question the handler does write a message, authoritative, with the SOA as its
authority section, and with an empty answer section when no record of the handler's
owner name has the requested type. -/
theorem authoritative_flag (SetReply : Msg → Msg → Msg) (R : List RR)
    (hsoa : ∃ rr ∈ R, rr.Hdr.Rrtype = TypeSOA) :
    ∃ s, runE R = .ok s ∧
      ∀ h ∈ s.handlers, ∀ (c : Nat) (r : Msg),
        (∀ m, (h.ServeDNS SetReply c r).written = .ok m → m.Authoritative = true) ∧
        (∀ q qs, r.Question = q :: qs →
          ∃ m, (h.ServeDNS SetReply c r).written = .ok m ∧ m.Authoritative = true ∧
            m.Ns = [s.soa] ∧
            ((∀ rr ∈ R, rr.Hdr.Name = h.zoneID → rr.Hdr.Rrtype ≠ q.Qtype) →
              m.Answer = [])) := by
  obtain ⟨s, hs⟩ := runE_ok_of_soa R hsoa
  refine ⟨s, hs, ?_⟩
  intro h hh c r
  have hsoa' : h.soa = s.soa := by
    have heq := ((mem_handlers R s hs h).mp hh).2
    conv_lhs => rw [heq]
    rfl
  constructor
  · intro m hm
    obtain ⟨_, _, _, _, _, hf⟩ := ServeDNS_of_written SetReply h c r m hm
    exact hf
  · intro q qs hq
    obtain ⟨m, hm, ha, hn, hf⟩ := ServeDNS_of_question SetReply h c r q qs hq
    refine ⟨m, hm, hf, by rw [hn, hsoa'], ?_⟩
    intro hnone
    rw [ha, index_handler R s hs h hh q.Qtype, List.filter_eq_nil_iff]
    intro rr hrr
    simp only [decide_eq_true_eq, not_and]
    exact hnone rr hrr

/-- Witness of C6 on the zone of the README (Scenario B): a query for type AAAA at
`matt.local.`, with the request's own authoritative flag cleared, is answered by the
handler of `matt.local.` with an authoritative message, no answer record and the SOA
as authority. -/
theorem authoritative_flag_readme :
    (∃ s, runE readmeZone = .ok s ∧
      ∀ h ∈ s.handlers, ∀ (c : Nat) (r : Msg),
        (∀ m, (h.ServeDNS SetReply c r).written = .ok m → m.Authoritative = true) ∧
        (∀ q qs, r.Question = q :: qs →
          ∃ m, (h.ServeDNS SetReply c r).written = .ok m ∧ m.Authoritative = true ∧
            m.Ns = [s.soa] ∧
            ((∀ rr ∈ readmeZone, rr.Hdr.Name = h.zoneID → rr.Hdr.Rrtype ≠ q.Qtype) →
              m.Answer = []))) ∧
    (∀ h ∈ registered readmeZone, h.zoneID = "matt.local." →
      (h.ServeDNS SetReply 0 (query 1 [⟨"matt.local.", TypeAAAA, ClassINET⟩])).written.map
          (fun m => (m.Authoritative, m.Answer, m.Ns))
        = .ok (true, [], [rr "matt.local." TypeSOA
            "ns.matt.local. username.matt.local. 2020091025 7200 3600 1209600 3600"])) :=
  ⟨authoritative_flag SetReply readmeZone (by decide), by decide⟩

/-! ## Name and type of the answers -/

/-- C7, as stated, fails: the handler never reads the name of the question. On the
zone of the README the handler registered for `matt.local.`, given a question of
type A for `www.matt.local.`, answers with the A record of `matt.local.`, whose
owner name is not the name asked. -/
theorem answer_name_counterexample :
    ∃ h ∈ registered readmeZone, h.zoneID = "matt.local." ∧
      (h.ServeDNS SetReply 0 (query 1 [⟨"www.matt.local.", TypeA, ClassINET⟩])).written.map
          (fun m => m.Answer)
        = .ok [rr "matt.local." TypeA "127.0.0.1"] ∧
      (rr "matt.local." TypeA "127.0.0.1").Hdr.Name ≠ "www.matt.local." := by
  decide

/-- C7, amended. For every record list `R` with an SOA, every registered handler,
every counter value and every request with at least one question, the handler writes
a message, and every record of its answer section has the type of the first question
and the owner name the handler is registered for; so it has the name of the first
question whenever that name is the handler's name. -/
theorem answer_type_and_owner (SetReply : Msg → Msg → Msg) (R : List RR)
    (hsoa : ∃ rr ∈ R, rr.Hdr.Rrtype = TypeSOA) :
    ∃ s, runE R = .ok s ∧
      ∀ h ∈ s.handlers, ∀ (c : Nat) (r : Msg) (q : Question) (qs : List Question),
        r.Question = q :: qs →
        ∃ m, (h.ServeDNS SetReply c r).written = .ok m ∧
          ∀ x ∈ m.Answer, x.Hdr.Rrtype = q.Qtype ∧ x.Hdr.Name = h.zoneID ∧
            (q.Name = h.zoneID → x.Hdr.Name = q.Name) := by
  obtain ⟨s, hs⟩ := runE_ok_of_soa R hsoa
  refine ⟨s, hs, ?_⟩
  intro h hh c r q qs hq
  obtain ⟨m, hm, ha, _, _⟩ := ServeDNS_of_question SetReply h c r q qs hq
  refine ⟨m, hm, ?_⟩
  intro x hx
  rw [ha, index_handler R s hs h hh q.Qtype, List.mem_filter] at hx
  have hx2 := of_decide_eq_true hx.2
  exact ⟨hx2.2, hx2.1, fun e => hx2.1.trans e.symm⟩

/-- Witness of the amended C7 on the zone of the README: the A records answered for
`workers.matt.local.` have type A and owner name `workers.matt.local.`. -/
theorem answer_type_and_owner_readme :
    (∃ s, runE readmeZone = .ok s ∧
      ∀ h ∈ s.handlers, ∀ (c : Nat) (r : Msg) (q : Question) (qs : List Question),
        r.Question = q :: qs →
        ∃ m, (h.ServeDNS SetReply c r).written = .ok m ∧
          ∀ x ∈ m.Answer, x.Hdr.Rrtype = q.Qtype ∧ x.Hdr.Name = h.zoneID ∧
            (q.Name = h.zoneID → x.Hdr.Name = q.Name)) ∧
    (∀ h ∈ registered readmeZone, h.zoneID = "workers.matt.local." →
      (h.ServeDNS SetReply 0
          (query 1 [⟨"workers.matt.local.", TypeA, ClassINET⟩])).written.map
          (fun m => m.Answer.map (fun x => (x.Hdr.Name, x.Hdr.Rrtype)))
        = .ok [("workers.matt.local.", TypeA), ("workers.matt.local.", TypeA)]) :=
  ⟨answer_type_and_owner SetReply readmeZone (by decide), by decide⟩

/-! ## Requests without a question -/

/-- C8, evaluated at a request with no question: whatever the handler, the counter
and the other fields of the request, the reception log has `has_question = false` and
question type 0 without reading the question list, and then the handler indexes the
empty question list at position 0 (line 160) and panics before it writes any message.
So do the three handlers of the zone of the README. -/
theorem no_question_panics (SetReply : Msg → Msg → Msg) (h : ZoneHandler) (c : Nat)
    (r : Msg) :
    (h.ServeDNS SetReply c { r with Question := [] }).hasQuestion = false ∧
    (h.ServeDNS SetReply c { r with Question := [] }).questionType = 0 ∧
    (h.ServeDNS SetReply c { r with Question := [] }).written
      = .error (.indexOutOfRange 0 0) ∧
    (registered readmeZone).map
        (fun h => (h.ServeDNS Dnsf.SetReply 0 (query 1 [])).written)
      = List.replicate 3 (.error (.indexOutOfRange 0 0)) := by
  refine ⟨?_, ?_, ?_, by decide⟩
  · simp [ZoneHandler.ServeDNS]
  · simp [ZoneHandler.ServeDNS]
  · exact ServeDNS_no_question SetReply h c _ rfl

/-! ## The request counter -/

/-- C10 (request counter step). Every call of a handler, whatever the handler and the
request, moves the counter from `c` to `(c + 1) mod 2^64` and takes the new value as
the request's identifier; from 0 the identifier is 1. Over any sequence of fewer than
`2^64` requests handled one after the other from 0, the identifiers taken are
1, 2, 3, ... in order, hence strictly increasing and pairwise distinct, and every
request of the sequence is handled when each has a question. The message written, or
the panic, does not depend on the counter. -/
theorem request_counter (SetReply : Msg → Msg → Msg) (reqs : List (ZoneHandler × Msg))
    (hlen : reqs.length < 2 ^ 64) :
    (∀ (h : ZoneHandler) (c : Nat) (r : Msg),
      (h.ServeDNS SetReply c r).globalID = (c + 1) % 2 ^ 64 ∧
      (h.ServeDNS SetReply c r).requestID = (h.ServeDNS SetReply c r).globalID) ∧
    (∀ (h : ZoneHandler) (r : Msg), (h.ServeDNS SetReply 0 r).requestID = 1) ∧
    (serve SetReply 0 reqs).map Handled.requestID
      = List.range' 1 (serve SetReply 0 reqs).length ∧
    ((serve SetReply 0 reqs).map Handled.requestID).Pairwise (fun a b => a < b) ∧
    ((serve SetReply 0 reqs).map Handled.requestID).Nodup ∧
    ((∀ e ∈ reqs, e.2.Question ≠ []) → (serve SetReply 0 reqs).length = reqs.length) ∧
    (∀ (h : ZoneHandler) (c c' : Nat) (r : Msg),
      (h.ServeDNS SetReply c r).written = (h.ServeDNS SetReply c' r).written) := by
  have hids := serve_ids SetReply reqs 0 (by omega)
  refine ⟨fun h c r => ⟨rfl, rfl⟩, fun h r => rfl, hids, ?_, ?_, ?_, fun h c c' r => rfl⟩
  · rw [hids]
    exact List.pairwise_lt_range' _ _
  · rw [hids]
    exact List.nodup_range' _ _
  · exact serve_length SetReply reqs 0

/-- Witness of C10: three queries handled in turn by the handlers of the zone of the
README take the identifiers 1, 2 and 3. -/
theorem request_counter_readme :
    ((registered readmeZone).map
        (fun h => (h, query 9 [⟨h.zoneID, TypeA, ClassINET⟩]))).length < 2 ^ 64 ∧
    (serve SetReply 0 ((registered readmeZone).map
        (fun h => (h, query 9 [⟨h.zoneID, TypeA, ClassINET⟩])))).map Handled.requestID
      = [1, 2, 3] :=
  ⟨by decide,
    ((request_counter SetReply ((registered readmeZone).map
        (fun h => (h, query 9 [⟨h.zoneID, TypeA, ClassINET⟩]))) (by decide)).2.2.1).trans
      (by decide)⟩

end Dnsf
